import Mathlib

set_option maxHeartbeats 1000000

/-!
Verification of the asynchronous TTS task orchestration layer of src/api.py.

The embedding translates the module state and every operation of the layer:
the global task dict tts_tasks, the POST /tts/ endpoint (text_to_speech), the
background worker process_tts_task (split at its single await point into
process_start and process_finish, which is exactly the granularity at which the
single-threaded event loop can interleave it with the endpoints), the two GET
endpoints, DELETE, and one tick of the hourly cleanup_old_tasks loop.

Timestamps are natural numbers of seconds; the filesystem is the list of
existing working directories. The ConversionEngine (core.run_tts_script) is not
part of src/ and is treated as an opaque collaborator, per the spec.
-/

/-- A TTS task record: the per-task dict stored in tts_tasks (src/api.py lines
150-154, 118-122, 126-130). The "request" entry is omitted: it is opaque to the
orchestration layer and never read by any embedded operation. Dict keys that are
absent are modelled as none. -/
structure TaskRec where
  status : String
  created_at : Nat
  completed_at : Option Nat := none
  output_file : Option String := none
  error : Option String := none
deriving DecidableEq

/-- The in-memory task dict tts_tasks (line 34), as an association list with the
most recently inserted entry first. -/
abbrev TaskDict := List (String × TaskRec)

/-- Python dict lookup: tts_tasks[k] when the key is present, signalled by some;
also decides "k in tts_tasks". -/
def dictGet : TaskDict → String → Option TaskRec
  | [], _ => none
  | p :: rest, k => if p.1 = k then some p.2 else dictGet rest k

/-- Python "del tts_tasks[k]". -/
def dictDel (d : TaskDict) (k : String) : TaskDict :=
  d.filter (fun p => p.1 != k)

/-- In-place mutation of the record stored at key k: models item assignment on
the stored dict (line 84) and dict.update on it (lines 118, 126). -/
def dictSet (d : TaskDict) (k : String) (f : TaskRec → TaskRec) : TaskDict :=
  d.map (fun p => if p.1 = k then (p.1, f p.2) else p)

/-- The per-task working directory name (lines 77, 213, 239): "temp_tts_" + id. -/
def tempDir (id : String) : String := "temp_tts_" ++ id

/-- os.makedirs(d, exist_ok=True) (line 78), on a filesystem modelled as the
list of existing directories. -/
def makedirs (dirs : List String) (d : String) : List String :=
  if d ∈ dirs then dirs else d :: dirs

/-- The guarded removal "if os.path.exists(d): shutil.rmtree(d)" (lines 133-134,
216-217, 240-241). -/
def rmtreeIfExists (dirs : List String) (d : String) : List String :=
  if d ∈ dirs then dirs.filter (fun x => x != d) else dirs

/-- Program-visible state: the global tts_tasks dict together with the set of
working directories present on disk. -/
structure Sys where
  tasks : TaskDict
  dirs : List String
deriving DecidableEq

/-- POST /tts/ (lines 138-163): insert a record with status "pending" and
created_at now, schedule the background task, and return the TTSResponse
(task_id, "pending", created_at). The fresh uuid4 id and the current time are
inputs of the model. -/
def text_to_speech (s : Sys) (task_id : String) (now : Nat) :
    Sys × (String × String × Nat) :=
  ({ s with tasks := (task_id, { status := "pending", created_at := now }) :: s.tasks },
   (task_id, "pending", now))

/-- Modelled from the spec: the outcome of the ConversionEngine call. The engine
(core.run_tts_script) is not under src/; the spec describes it as "invoked with
a parameter bundle and returning a success message plus an output file path or
failing with an error". -/
inductive EngineResult where
  | ok (output_file : String)
  | err (msg : String)
deriving DecidableEq

/-- First segment of process_tts_task (lines 76-84), up to the await of the
engine call: assign temp_dir, makedirs, set the status to "processing". If the
record was deleted before this runs, line 84 raises KeyError; the except handler
then raises KeyError itself at line 126 before reaching the rmtree of line 133,
so the directory created at line 78 stays on disk and the rest of the coroutine
never runs. The second component is the escaping exception, if any. -/
def process_start (s : Sys) (task_id : String) : Sys × Option String :=
  let dirs2 := makedirs s.dirs (tempDir task_id)
  match dictGet s.tasks task_id with
  | some _ =>
      ({ tasks := dictSet s.tasks task_id (fun t => { t with status := "processing" }),
         dirs := dirs2 }, none)
  | none => ({ s with dirs := dirs2 }, some "KeyError")

/-- Second segment of process_tts_task (lines 117-136), from the return of the
engine call: on success, update the record to "completed" with completed_at and
output_file (lines 118-122); on engine failure, update it to "failed" with
completed_at and error, remove the working directory, and re-raise the exception
(lines 124-136). If the record was deleted meanwhile, the dict access raises
KeyError, the handler's own dict access raises KeyError again, nothing is
written and the rmtree of line 133 is never reached. The second component is the
escaping exception, if any. -/
def process_finish (s : Sys) (task_id : String) (r : EngineResult) (now : Nat) :
    Sys × Option String :=
  match r with
  | .ok out =>
    match dictGet s.tasks task_id with
    | some _ =>
        ({ s with tasks := dictSet s.tasks task_id (fun t =>
            { t with status := "completed", completed_at := some now,
                     output_file := some out }) }, none)
    | none => (s, some "KeyError")
  | .err msg =>
    match dictGet s.tasks task_id with
    | some _ =>
        ({ tasks := dictSet s.tasks task_id (fun t =>
             { t with status := "failed", completed_at := some now, error := some msg }),
           dirs := rmtreeIfExists s.dirs (tempDir task_id) }, some msg)
    | none => (s, some "KeyError")

/-- GET /tts/{id}/status (lines 165-181): 404 "Task not found" when the id is
unknown, otherwise the TTSStatus payload (the id and the record's fields). -/
def get_tts_status (s : Sys) (task_id : String) :
    Except (Nat × String) (String × TaskRec) :=
  match dictGet s.tasks task_id with
  | none => .error (404, "Task not found")
  | some t => .ok (task_id, t)

/-- GET /tts/{id}/result (lines 183-202): 404 when the id is unknown; 400 with
the current status when the status is not "completed"; 404 "Output file not
found" when the stored output_file entry is falsy (absent or the empty string);
otherwise FileResponse on the stored path, carried by ok. The code consults only
the record, never the filesystem. -/
def get_tts_result (s : Sys) (task_id : String) : Except (Nat × String) String :=
  match dictGet s.tasks task_id with
  | none => .error (404, "Task not found")
  | some t =>
    if t.status != "completed" then
      .error (400, "Task is not completed. Current status: " ++ t.status)
    else
      match t.output_file with
      | none => .error (404, "Output file not found")
      | some f => if f = "" then .error (404, "Output file not found") else .ok f

/-- DELETE /tts/{id} (lines 204-222): 404 when the id is unknown; otherwise
remove the working directory if it exists and delete the record. -/
def delete_tts_task (s : Sys) (task_id : String) :
    Sys × Except (Nat × String) String :=
  match dictGet s.tasks task_id with
  | none => (s, .error (404, "Task not found"))
  | some _ =>
      ({ tasks := dictDel s.tasks task_id,
         dirs := rmtreeIfExists s.dirs (tempDir task_id) },
       .ok ("Task " ++ task_id ++ " deleted successfully"))

/-- The age test of the sweeper (line 235): (current_time - created_at).days >= 1,
with timestamps in seconds, so one day is 86400 seconds. -/
def expired (now : Nat) (t : TaskRec) : Bool := decide (1 ≤ (now - t.created_at) / 86400)

/-- The ids collected by the scan loop of lines 230-236 of one sweeper tick. -/
def sweepIds (now : Nat) (s : Sys) : List String :=
  (s.tasks.filter (fun p => expired now p.2)).map Prod.fst

/-- One iteration of the deletion loop of lines 238-242: remove the working
directory if it exists, then del the record. -/
def sweepStep (st : Sys) (id : String) : Sys :=
  { tasks := dictDel st.tasks id, dirs := rmtreeIfExists st.dirs (tempDir id) }

/-- One tick of cleanup_old_tasks (lines 227-244): collect the expired ids, then
delete each collected id's working directory and record. -/
def cleanup_tick (now : Nat) (s : Sys) : Sys :=
  (sweepIds now s).foldl sweepStep s

/-- The deletion loop of lines 238-242 run over a filesystem in which removing
any directory listed in failing raises. The loop body has no try/except, so the
exception propagates out of cleanup_old_tasks, carrying the state at the moment
it was raised; the ids after the failing one are never processed. -/
def sweepGo (failing : List String) : List String → Sys → Except (String × Sys) Sys
  | [], s => .ok s
  | id :: rest, s =>
      if tempDir id ∈ s.dirs then
        if tempDir id ∈ failing then
          .error ("rmtree failed: " ++ tempDir id, s)
        else
          sweepGo failing rest
            { tasks := dictDel s.tasks id,
              dirs := s.dirs.filter (fun x => x != tempDir id) }
      else
        sweepGo failing rest { tasks := dictDel s.tasks id, dirs := s.dirs }

/-- One tick of cleanup_old_tasks over the fallible filesystem. -/
def cleanup_tick_f (failing : List String) (now : Nat) (s : Sys) :
    Except (String × Sys) Sys :=
  sweepGo failing (sweepIds now s) s

/-- Openability of a file path, for a filesystem whose set of openable files is
given explicitly. get_tts_result never consults it. -/
def canOpen (files : List String) (p : String) : Bool := decide (p ∈ files)

/-- Trace state: the program state plus bookkeeping of the background
executions created by BackgroundTasks.add_task (line 157) — the ids whose
coroutine has not started yet, the ids whose first segment ran and whose second
segment is still pending — and of every id ever issued by uuid4. -/
structure World where
  sys : Sys
  scheduled : List String
  running : List String
  used : List String
deriving DecidableEq

/-- One observable transition of the orchestration layer. The event loop is
single threaded, so each handler and each segment of the worker between await
points is atomic; the constructors are exactly those segments. In execFinish the
engine outcome is an input; modelled from the spec, a success carries an output
file path and a failure carries an error description, both nonempty strings. -/
inductive Step : World → World → Prop where
  | submit {w : World} (id : String) (now : Nat) (hfresh : id ∉ w.used) :
      Step w ⟨(text_to_speech w.sys id now).1, id :: w.scheduled, w.running, id :: w.used⟩
  | execStart {w : World} (id : String) (hs : id ∈ w.scheduled)
      (hlive : (dictGet w.sys.tasks id).isSome = true) :
      Step w ⟨(process_start w.sys id).1, w.scheduled.erase id, id :: w.running, w.used⟩
  | execStartGone {w : World} (id : String) (hs : id ∈ w.scheduled)
      (hdead : dictGet w.sys.tasks id = none) :
      Step w ⟨(process_start w.sys id).1, w.scheduled.erase id, w.running, w.used⟩
  | execFinish {w : World} (id : String) (r : EngineResult) (now : Nat)
      (hr : id ∈ w.running)
      (hok : ∀ o, r = EngineResult.ok o → o ≠ "")
      (herr : ∀ m, r = EngineResult.err m → m ≠ "") :
      Step w ⟨(process_finish w.sys id r now).1, w.scheduled, w.running.erase id, w.used⟩
  | queryStatus {w : World} (id : String) : Step w w
  | queryResult {w : World} (id : String) : Step w w
  | deleteTask {w : World} (id : String) :
      Step w ⟨(delete_tts_task w.sys id).1, w.scheduled, w.running, w.used⟩
  | sweep {w : World} (now : Nat) :
      Step w ⟨cleanup_tick now w.sys, w.scheduled, w.running, w.used⟩

/-- The start state of the module: no tasks, no working directories. -/
def World.start : World := ⟨⟨[], []⟩, [], [], []⟩

/-- States reachable from the start state by any sequence of operations. -/
inductive Reachable : World → Prop where
  | start : Reachable World.start
  | step {w w' : World} : Reachable w → Step w w' → Reachable w'

theorem mem_of_dictGet_some {d : TaskDict} {k : String} {t : TaskRec}
    (h : dictGet d k = some t) : (k, t) ∈ d := by
  induction d with
  | nil => simp [dictGet] at h
  | cons p rest ih =>
    by_cases hk : p.1 = k
    · rw [dictGet, if_pos hk] at h
      injection h with h2
      subst h2
      have hp : (k, p.2) = p := by rw [← hk]
      rw [hp]
      exact List.mem_cons_self p rest
    · rw [dictGet, if_neg hk] at h
      exact List.mem_cons_of_mem _ (ih h)

theorem dictGet_some_of_mem {d : TaskDict} (hN : (d.map Prod.fst).Nodup)
    {p : String × TaskRec} (hp : p ∈ d) : dictGet d p.1 = some p.2 := by
  induction d with
  | nil => cases hp
  | cons q rest ih =>
    rcases List.mem_cons.mp hp with h | h
    · subst h
      simp [dictGet]
    · have hq : q.1 ≠ p.1 := by
        intro he
        have : p.1 ∈ rest.map Prod.fst := List.mem_map_of_mem Prod.fst h
        rw [List.map_cons] at hN
        exact (List.nodup_cons.mp hN).1 (he ▸ this)
      simp only [dictGet, if_neg hq]
      exact ih (List.nodup_cons.mp (by rw [List.map_cons] at hN; exact hN)).2 h

theorem dictGet_eq_none_iff {d : TaskDict} {k : String} :
    dictGet d k = none ↔ ∀ p ∈ d, p.1 ≠ k := by
  induction d with
  | nil => simp [dictGet]
  | cons q rest ih =>
    by_cases hq : q.1 = k
    · simp [dictGet, hq]
    · simp [dictGet, hq, ih]

theorem dictGet_dictSet {d : TaskDict} {k kq : String} {f : TaskRec → TaskRec} :
    dictGet (dictSet d k f) kq =
      if kq = k then (dictGet d k).map f else dictGet d kq := by
  induction d with
  | nil => by_cases h : kq = k <;> simp [dictGet, dictSet, h]
  | cons q rest ih =>
    by_cases hq : q.1 = k
    · by_cases hkq : kq = k
      · subst hkq
        simp [dictSet, dictGet, hq, ih]
      · have : q.1 ≠ kq := by rw [hq]; exact fun h => hkq h.symm
        simp only [dictSet, List.map_cons, if_pos hq, dictGet, if_neg this, if_neg hkq]
        simpa [dictSet, hkq] using ih
    · by_cases hkq : kq = k
      · subst hkq
        have : q.1 ≠ kq := hq
        simp only [dictSet, List.map_cons, if_neg hq, dictGet, if_neg this, if_pos rfl]
        simpa [dictSet] using ih
      · by_cases hqk : q.1 = kq
        · simp [dictSet, dictGet, hq, hqk, hkq]
        · simp only [dictSet, List.map_cons, if_neg hq, dictGet, if_neg hqk, if_neg hkq]
          simpa [dictSet, hkq] using ih

theorem keys_dictSet {d : TaskDict} {k : String} {f : TaskRec → TaskRec} :
    (dictSet d k f).map Prod.fst = d.map Prod.fst := by
  induction d with
  | nil => rfl
  | cons q rest ih =>
    by_cases hq : q.1 = k <;> simp [dictSet, hq] <;> simpa [dictSet] using ih

theorem mem_dictSet_elim {d : TaskDict} {k : String} {f : TaskRec → TaskRec}
    {p : String × TaskRec} (hp : p ∈ dictSet d k f) :
    (p ∈ d ∧ p.1 ≠ k) ∨ ∃ t, (k, t) ∈ d ∧ p = (k, f t) := by
  rcases List.mem_map.mp hp with ⟨q, hq, he⟩
  by_cases hqk : q.1 = k
  · right
    refine ⟨q.2, ?_, ?_⟩
    · have : (q.1, q.2) ∈ d := by simpa using hq
      rwa [hqk] at this
    · rw [← he]
      simp [if_pos hqk, hqk]
  · left
    rw [← he]
    simp only [if_neg hqk]
    exact ⟨hq, hqk⟩

theorem mem_dictDel {d : TaskDict} {k : String} {p : String × TaskRec} :
    p ∈ dictDel d k ↔ p ∈ d ∧ p.1 ≠ k := by
  simp [dictDel, List.mem_filter, bne_iff_ne]

theorem keys_dictDel_sublist {d : TaskDict} {k : String} :
    List.Sublist ((dictDel d k).map Prod.fst) (d.map Prod.fst) :=
  (List.filter_sublist d).map Prod.fst

theorem dictGet_dictDel {d : TaskDict} {k kq : String} :
    dictGet (dictDel d k) kq = if kq = k then none else dictGet d kq := by
  induction d with
  | nil => by_cases h : kq = k <;> simp [dictGet, dictDel, h]
  | cons q rest ih =>
    by_cases hq : q.1 = k
    · have h1 : (q.1 != k) = false := by simp [hq]
      have hd : dictDel (q :: rest) k = dictDel rest k := by
        simp [dictDel, List.filter_cons, h1]
      by_cases hkq : kq = k
      · rw [hd, ih, if_pos hkq, if_pos hkq]
      · have hqkq : q.1 ≠ kq := fun h => hkq ((h.symm.trans hq))
        rw [hd, ih, if_neg hkq, dictGet, if_neg hqkq, if_neg hkq]
    · have h1 : (q.1 != k) = true := by simp [hq]
      have hd : dictDel (q :: rest) k = q :: dictDel rest k := by
        simp [dictDel, List.filter_cons, h1]
      by_cases hqk : q.1 = kq
      · have hkq : kq ≠ k := fun h => hq (hqk.trans h)
        rw [hd, dictGet, if_pos hqk, if_neg hkq, dictGet, if_pos hqk]
      · by_cases hkq : kq = k
        · rw [hd, dictGet, if_neg hqk, ih, if_pos hkq, if_pos hkq]
        · rw [hd, dictGet, if_neg hqk, ih, if_neg hkq, if_neg hkq, dictGet, if_neg hqk]

theorem rmtreeIfExists_eq_filter (dirs : List String) (d : String) :
    rmtreeIfExists dirs d = dirs.filter (fun x => x != d) := by
  rw [rmtreeIfExists]
  by_cases h : d ∈ dirs
  · rw [if_pos h]
  · rw [if_neg h, List.filter_eq_self.mpr]
    intro x hx
    simp only [bne_iff_ne, ne_eq, decide_not]
    simp only [decide_eq_true_eq] at *
    exact fun he => h (he ▸ hx)

theorem foldl_sweepStep (ids : List String) (s : Sys) :
    ids.foldl sweepStep s =
      ⟨ids.foldl (fun ts id => dictDel ts id) s.tasks,
       ids.foldl (fun ds id => rmtreeIfExists ds (tempDir id)) s.dirs⟩ := by
  induction ids generalizing s with
  | nil => rfl
  | cons id rest ih =>
    rw [List.foldl_cons, ih, List.foldl_cons, List.foldl_cons]
    rfl

theorem foldl_filter_eq {α β : Type} (l : List β) (q : β → α → Bool) (acc : List α) :
    l.foldl (fun a b => a.filter (q b)) acc =
      acc.filter (fun a => l.all (fun b => q b a)) := by
  induction l generalizing acc with
  | nil => simp
  | cons b rest ih =>
    rw [List.foldl_cons, ih, List.filter_filter]
    apply List.filter_congr
    intro a _
    simp [List.all_cons, Bool.and_comm]

theorem cleanup_tick_tasks (now : Nat) (s : Sys) :
    (cleanup_tick now s).tasks =
      s.tasks.filter (fun p => (sweepIds now s).all (fun id => p.1 != id)) := by
  rw [cleanup_tick, foldl_sweepStep]
  exact foldl_filter_eq (sweepIds now s) (fun id p => p.1 != id) s.tasks

theorem cleanup_tick_dirs (now : Nat) (s : Sys) :
    (cleanup_tick now s).dirs =
      s.dirs.filter (fun d => (sweepIds now s).all (fun id => d != tempDir id)) := by
  rw [cleanup_tick, foldl_sweepStep]
  have hf : (fun ds id => rmtreeIfExists ds (tempDir id)) =
      (fun (ds : List String) (id : String) => ds.filter (fun d => d != tempDir id)) := by
    funext ds id
    exact rmtreeIfExists_eq_filter ds (tempDir id)
  rw [hf]
  exact foldl_filter_eq (sweepIds now s) (fun id d => d != tempDir id) s.dirs

theorem mem_sweepIds {now : Nat} {s : Sys} {id : String} :
    id ∈ sweepIds now s ↔ ∃ t, (id, t) ∈ s.tasks ∧ expired now t = true := by
  simp only [sweepIds, List.mem_map, List.mem_filter]
  constructor
  · rintro ⟨⟨a, b⟩, ⟨hp, he⟩, hid⟩
    subst hid
    exact ⟨b, hp, he⟩
  · rintro ⟨t, hp, he⟩
    exact ⟨(id, t), ⟨hp, he⟩, rfl⟩

theorem mem_cleanup_tasks {now : Nat} {s : Sys} {p : String × TaskRec} :
    p ∈ (cleanup_tick now s).tasks ↔ p ∈ s.tasks ∧ p.1 ∉ sweepIds now s := by
  rw [cleanup_tick_tasks, List.mem_filter, List.all_eq_true]
  constructor
  · rintro ⟨hp, hall⟩
    refine ⟨hp, fun hmem => ?_⟩
    have := hall _ hmem
    simp [bne_iff_ne] at this
  · rintro ⟨hp, hnot⟩
    refine ⟨hp, fun id hid => ?_⟩
    simp only [bne_iff_ne, ne_eq, decide_eq_true_eq]
    exact fun he => hnot (he ▸ hid)

theorem mem_cleanup_dirs {now : Nat} {s : Sys} {d : String} :
    d ∈ (cleanup_tick now s).dirs ↔
      d ∈ s.dirs ∧ ∀ id ∈ sweepIds now s, d ≠ tempDir id := by
  rw [cleanup_tick_dirs, List.mem_filter, List.all_eq_true]
  simp [bne_iff_ne]

theorem sweepIds_cleanup_tick (now : Nat) (s : Sys) :
    sweepIds now (cleanup_tick now s) = [] := by
  rw [sweepIds, List.map_eq_nil_iff]
  rw [List.filter_eq_nil_iff]
  intro p hp
  simp only [Bool.not_eq_true]
  rcases mem_cleanup_tasks.mp hp with ⟨hmem, hnot⟩
  by_contra hexp
  simp only [Bool.not_eq_false] at hexp
  exact hnot (mem_sweepIds.mpr ⟨p.2, hmem, hexp⟩)

/-- The inductive invariant of the trace model: key uniqueness, bookkeeping
consistency, and the record-shape facts tied to each execution phase. A record
whose id is still scheduled is "pending" with neither output_file nor error; one
whose worker is between its two segments is "processing" with neither; any
other record is terminal, "completed" with a nonempty output_file and no error,
or "failed" with a nonempty error and no output_file. -/
structure WInv (w : World) : Prop where
  keysNodup : (w.sys.tasks.map Prod.fst).Nodup
  schedNodup : w.scheduled.Nodup
  runNodup : w.running.Nodup
  disj : ∀ id, id ∈ w.scheduled → id ∉ w.running
  keysUsed : ∀ p ∈ w.sys.tasks, p.1 ∈ w.used
  schedUsed : ∀ id ∈ w.scheduled, id ∈ w.used
  runUsed : ∀ id ∈ w.running, id ∈ w.used
  pendingInv : ∀ p ∈ w.sys.tasks, p.1 ∈ w.scheduled →
      p.2.status = "pending" ∧ p.2.output_file = none ∧ p.2.error = none
  processingInv : ∀ p ∈ w.sys.tasks, p.1 ∈ w.running →
      p.2.status = "processing" ∧ p.2.output_file = none ∧ p.2.error = none
  terminalInv : ∀ p ∈ w.sys.tasks, p.1 ∉ w.scheduled → p.1 ∉ w.running →
      (p.2.status = "completed" ∧ (∃ o, p.2.output_file = some o ∧ o ≠ "") ∧
        p.2.error = none) ∨
      (p.2.status = "failed" ∧ (∃ m, p.2.error = some m ∧ m ≠ "") ∧
        p.2.output_file = none)

theorem inv_start : WInv World.start := by
  constructor <;> simp [World.start]

theorem inv_shrink {w : World} (hi : WInv w) {T : TaskDict} {D : List String}
    (hsub : ∀ p ∈ T, p ∈ w.sys.tasks) (hnod : (T.map Prod.fst).Nodup) :
    WInv ⟨⟨T, D⟩, w.scheduled, w.running, w.used⟩ := by
  refine ⟨hnod, hi.schedNodup, hi.runNodup, hi.disj, ?_, hi.schedUsed, hi.runUsed,
    ?_, ?_, ?_⟩
  · exact fun p hp => hi.keysUsed p (hsub p hp)
  · exact fun p hp h => hi.pendingInv p (hsub p hp) h
  · exact fun p hp h => hi.processingInv p (hsub p hp) h
  · exact fun p hp h1 h2 => hi.terminalInv p (hsub p hp) h1 h2

theorem inv_finish_gone {w : World} (hi : WInv w) (id : String)
    (hdead : dictGet w.sys.tasks id = none) :
    WInv ⟨w.sys, w.scheduled, w.running.erase id, w.used⟩ := by
  have hidkeys : ∀ p ∈ w.sys.tasks, p.1 ≠ id := dictGet_eq_none_iff.mp hdead
  refine ⟨hi.keysNodup, hi.schedNodup, hi.runNodup.erase id, ?_, hi.keysUsed,
    hi.schedUsed, ?_, hi.pendingInv, ?_, ?_⟩
  · intro x hx hxe
    exact hi.disj x hx (List.mem_of_mem_erase hxe)
  · exact fun x hx => hi.runUsed x (List.mem_of_mem_erase hx)
  · exact fun p hp h => hi.processingInv p hp (List.mem_of_mem_erase h)
  · intro p hp hns hnr
    have hpr : p.1 ∉ w.running := by
      intro hmem
      exact hnr ((hi.runNodup.mem_erase_iff).mpr ⟨hidkeys p hp, hmem⟩)
    exact hi.terminalInv p hp hns hpr

theorem inv_finish_term {w : World} (hi : WInv w) {id : String} {t0 : TaskRec}
    (hget : dictGet w.sys.tasks id = some t0) (hr : id ∈ w.running)
    (f : TaskRec → TaskRec) (D : List String)
    (hf : ((f t0).status = "completed" ∧
            (∃ o, (f t0).output_file = some o ∧ o ≠ "") ∧ (f t0).error = none) ∨
          ((f t0).status = "failed" ∧
            (∃ m, (f t0).error = some m ∧ m ≠ "") ∧ (f t0).output_file = none)) :
    WInv ⟨⟨dictSet w.sys.tasks id f, D⟩, w.scheduled, w.running.erase id, w.used⟩ := by
  have hnsched : id ∉ w.scheduled := fun h => hi.disj id h hr
  refine ⟨?_, hi.schedNodup, hi.runNodup.erase id, ?_, ?_, hi.schedUsed, ?_,
    ?_, ?_, ?_⟩
  · rw [keys_dictSet]
    exact hi.keysNodup
  · intro x hx hxe
    exact hi.disj x hx (List.mem_of_mem_erase hxe)
  · intro p hp
    rcases mem_dictSet_elim hp with ⟨hold, _⟩ | ⟨t, htm, he⟩
    · exact hi.keysUsed p hold
    · subst he
      exact hi.runUsed id hr
  · exact fun x hx => hi.runUsed x (List.mem_of_mem_erase hx)
  · intro p hp hsched
    rcases mem_dictSet_elim hp with ⟨hold, _⟩ | ⟨t, htm, he⟩
    · exact hi.pendingInv p hold hsched
    · subst he
      exact absurd hsched hnsched
  · intro p hp hrun
    rcases mem_dictSet_elim hp with ⟨hold, _⟩ | ⟨t, htm, he⟩
    · exact hi.processingInv p hold (List.mem_of_mem_erase hrun)
    · subst he
      exact absurd rfl ((hi.runNodup.mem_erase_iff).mp hrun).1
  · intro p hp hns hnr
    rcases mem_dictSet_elim hp with ⟨hold, hne⟩ | ⟨t, htm, he⟩
    · have hpr : p.1 ∉ w.running := by
        intro hmem
        exact hnr ((hi.runNodup.mem_erase_iff).mpr ⟨hne, hmem⟩)
      exact hi.terminalInv p hold hns hpr
    · have ht0 : t = t0 := by
        have := dictGet_some_of_mem hi.keysNodup htm
        rw [hget] at this
        injection this.symm
      subst ht0
      subst he
      exact hf

theorem inv_step {w w' : World} (hi : WInv w) (hstep : Step w w') : WInv w' := by
  cases hstep with
  | submit id now hfresh =>
    have hfreshKeys : id ∉ w.sys.tasks.map Prod.fst := by
      intro hmem
      rcases List.mem_map.mp hmem with ⟨p, hp, he⟩
      exact hfresh (he ▸ hi.keysUsed p hp)
    have hfreshSched : id ∉ w.scheduled := fun h => hfresh (hi.schedUsed id h)
    have hfreshRun : id ∉ w.running := fun h => hfresh (hi.runUsed id h)
    refine ⟨?_, ?_, hi.runNodup, ?_, ?_, ?_, ?_, ?_, ?_, ?_⟩
    · simp only [text_to_speech, List.map_cons]
      exact List.nodup_cons.mpr ⟨hfreshKeys, hi.keysNodup⟩
    · exact List.nodup_cons.mpr ⟨hfreshSched, hi.schedNodup⟩
    · intro x hx
      rcases List.mem_cons.mp hx with he | hmem
      · subst he
        exact hfreshRun
      · exact hi.disj x hmem
    · intro p hp
      simp only [text_to_speech] at hp
      rcases List.mem_cons.mp hp with he | hold
      · subst he
        exact List.mem_cons_self _ _
      · exact List.mem_cons_of_mem _ (hi.keysUsed p hold)
    · intro x hx
      rcases List.mem_cons.mp hx with he | hmem
      · subst he
        exact List.mem_cons_self _ _
      · exact List.mem_cons_of_mem _ (hi.schedUsed x hmem)
    · exact fun x hx => List.mem_cons_of_mem _ (hi.runUsed x hx)
    · intro p hp hsched
      simp only [text_to_speech] at hp
      rcases List.mem_cons.mp hp with he | hold
      · subst he
        exact ⟨rfl, rfl, rfl⟩
      · rcases List.mem_cons.mp hsched with he1 | hmem
        · exact absurd (he1 ▸ hi.keysUsed p hold) hfresh
        · exact hi.pendingInv p hold hmem
    · intro p hp hrun
      simp only [text_to_speech] at hp
      rcases List.mem_cons.mp hp with he | hold
      · subst he
        exact absurd hrun hfreshRun
      · exact hi.processingInv p hold hrun
    · intro p hp hns hnr
      simp only [text_to_speech] at hp
      rcases List.mem_cons.mp hp with he | hold
      · subst he
        exact absurd (List.mem_cons_self _ _) hns
      · exact hi.terminalInv p hold (fun h => hns (List.mem_cons_of_mem _ h)) hnr
  | execStart id hs hlive =>
    rcases Option.isSome_iff_exists.mp hlive with ⟨t0, ht0⟩
    have hps : (process_start w.sys id).1 =
        ⟨dictSet w.sys.tasks id (fun t => { t with status := "processing" }),
         makedirs w.sys.dirs (tempDir id)⟩ := by
      simp [process_start, ht0]
    rw [hps]
    have hidrun : id ∉ w.running := hi.disj id hs
    refine ⟨?_, hi.schedNodup.erase id, ?_, ?_, ?_, ?_, ?_, ?_, ?_, ?_⟩
    · show ((dictSet w.sys.tasks id
        (fun t => { t with status := "processing" })).map Prod.fst).Nodup
      rw [keys_dictSet]
      exact hi.keysNodup
    · exact List.nodup_cons.mpr ⟨hidrun, hi.runNodup⟩
    · intro x hx hxr
      have hxe := (hi.schedNodup.mem_erase_iff).mp hx
      rcases List.mem_cons.mp hxr with he | hmem
      · exact hxe.1 he
      · exact hi.disj x hxe.2 hmem
    · intro p hp
      have hp2 : p ∈ dictSet w.sys.tasks id
          (fun t => { t with status := "processing" }) := hp
      rcases mem_dictSet_elim hp2 with ⟨hold, _⟩ | ⟨t, htm, he⟩
      · exact hi.keysUsed p hold
      · subst he
        exact hi.schedUsed id hs
    · intro x hx
      exact hi.schedUsed x (List.mem_of_mem_erase hx)
    · intro x hx
      rcases List.mem_cons.mp hx with he | hmem
      · rw [he]
        exact hi.schedUsed id hs
      · exact hi.runUsed x hmem
    · intro p hp hsched
      have hne := ((hi.schedNodup.mem_erase_iff).mp hsched).1
      have hmem := ((hi.schedNodup.mem_erase_iff).mp hsched).2
      have hp2 : p ∈ dictSet w.sys.tasks id
          (fun t => { t with status := "processing" }) := hp
      rcases mem_dictSet_elim hp2 with ⟨hold, _⟩ | ⟨t, htm, he⟩
      · exact hi.pendingInv p hold hmem
      · subst he
        exact absurd rfl hne
    · intro p hp hrun
      have hp2 : p ∈ dictSet w.sys.tasks id
          (fun t => { t with status := "processing" }) := hp
      rcases mem_dictSet_elim hp2 with ⟨hold, hne⟩ | ⟨t, htm, he⟩
      · rcases List.mem_cons.mp hrun with he1 | hmem
        · exact absurd he1 hne
        · exact hi.processingInv p hold hmem
      · subst he
        have hpt := hi.pendingInv (id, t) htm hs
        exact ⟨rfl, hpt.2.1, hpt.2.2⟩
    · intro p hp hns hnr
      have hp2 : p ∈ dictSet w.sys.tasks id
          (fun t => { t with status := "processing" }) := hp
      rcases mem_dictSet_elim hp2 with ⟨hold, hne⟩ | ⟨t, htm, he⟩
      · have h1 : p.1 ∉ w.scheduled := fun hmem =>
          hns ((hi.schedNodup.mem_erase_iff).mpr ⟨hne, hmem⟩)
        have h2 : p.1 ∉ w.running := fun h => hnr (List.mem_cons_of_mem _ h)
        exact hi.terminalInv p hold h1 h2
      · subst he
        exact absurd (List.mem_cons_self _ _) hnr
  | execStartGone id hs hdead =>
    have hps : (process_start w.sys id).1 =
        ⟨w.sys.tasks, makedirs w.sys.dirs (tempDir id)⟩ := by
      simp [process_start, hdead]
    rw [hps]
    have hidkeys : ∀ p ∈ w.sys.tasks, p.1 ≠ id := dictGet_eq_none_iff.mp hdead
    refine ⟨hi.keysNodup, hi.schedNodup.erase id, hi.runNodup, ?_, hi.keysUsed,
      ?_, hi.runUsed, ?_, hi.processingInv, ?_⟩
    · intro x hx
      exact hi.disj x (List.mem_of_mem_erase hx)
    · intro x hx
      exact hi.schedUsed x (List.mem_of_mem_erase hx)
    · intro p hp hsched
      exact hi.pendingInv p hp (List.mem_of_mem_erase hsched)
    · intro p hp hns hnr
      have h1 : p.1 ∉ w.scheduled := fun hmem =>
        hns ((hi.schedNodup.mem_erase_iff).mpr ⟨hidkeys p hp, hmem⟩)
      exact hi.terminalInv p hp h1 hnr
  | execFinish id r now hr hok herr =>
    cases r with
    | ok out =>
      cases hget : dictGet w.sys.tasks id with
      | none =>
        have hps : (process_finish w.sys id (EngineResult.ok out) now).1 = w.sys := by
          simp [process_finish, hget]
        rw [hps]
        exact inv_finish_gone hi id hget
      | some t0 =>
        have hps : (process_finish w.sys id (EngineResult.ok out) now).1 =
            ⟨dictSet w.sys.tasks id (fun t =>
               { t with status := "completed", completed_at := some now,
                        output_file := some out }), w.sys.dirs⟩ := by
          simp [process_finish, hget]
        rw [hps]
        have hproc := hi.processingInv (id, t0) (mem_of_dictGet_some hget) hr
        exact inv_finish_term hi hget hr _ _
          (Or.inl ⟨rfl, ⟨out, rfl, hok out rfl⟩, hproc.2.2⟩)
    | err msg =>
      cases hget : dictGet w.sys.tasks id with
      | none =>
        have hps : (process_finish w.sys id (EngineResult.err msg) now).1 = w.sys := by
          simp [process_finish, hget]
        rw [hps]
        exact inv_finish_gone hi id hget
      | some t0 =>
        have hps : (process_finish w.sys id (EngineResult.err msg) now).1 =
            ⟨dictSet w.sys.tasks id (fun t =>
               { t with status := "failed", completed_at := some now,
                        error := some msg }),
             rmtreeIfExists w.sys.dirs (tempDir id)⟩ := by
          simp [process_finish, hget]
        rw [hps]
        have hproc := hi.processingInv (id, t0) (mem_of_dictGet_some hget) hr
        exact inv_finish_term hi hget hr _ _
          (Or.inr ⟨rfl, ⟨msg, rfl, herr msg rfl⟩, hproc.2.1⟩)
  | queryStatus id => exact hi
  | queryResult id => exact hi
  | deleteTask id =>
    cases hget : dictGet w.sys.tasks id with
    | none =>
      have hps : (delete_tts_task w.sys id).1 = w.sys := by
        simp [delete_tts_task, hget]
      rw [hps]
      exact hi
    | some t0 =>
      have hps : (delete_tts_task w.sys id).1 =
          ⟨dictDel w.sys.tasks id, rmtreeIfExists w.sys.dirs (tempDir id)⟩ := by
        simp [delete_tts_task, hget]
      rw [hps]
      exact inv_shrink hi (fun p hp => (mem_dictDel.mp hp).1)
        (hi.keysNodup.sublist keys_dictDel_sublist)
  | sweep now =>
    have hsub : ∀ p ∈ (cleanup_tick now w.sys).tasks, p ∈ w.sys.tasks :=
      fun p hp => (mem_cleanup_tasks.mp hp).1
    have hnod : ((cleanup_tick now w.sys).tasks.map Prod.fst).Nodup := by
      rw [cleanup_tick_tasks]
      exact hi.keysNodup.sublist ((List.filter_sublist _).map _)
    exact inv_shrink hi hsub hnod

theorem reachable_inv {w : World} (h : Reachable w) : WInv w := by
  induction h with
  | start => exact inv_start
  | step hr hstep ih => exact inv_step ih hstep

/-- C9: the expiry sweep is idempotent: one tick of cleanup_old_tasks followed
immediately by a second tick at the same clock reading, with no new tasks
created in between, leaves the task store and the set of working directories
exactly as after the first tick. -/
theorem C9_sweep_idempotent (now : Nat) (s : Sys) :
    cleanup_tick now (cleanup_tick now s) = cleanup_tick now s := by
  have h := sweepIds_cleanup_tick now s
  show (sweepIds now (cleanup_tick now s)).foldl sweepStep (cleanup_tick now s) =
    cleanup_tick now s
  rw [h]
  rfl

/-- C8: get_tts_result returns 404 NotFound for an unknown id; for a record in
any status other than "completed" it returns the 400 InvalidState error whose
message includes the current status, with no payload. -/
theorem C8_fetch_errors (s : Sys) (id : String) :
    (dictGet s.tasks id = none →
      get_tts_result s id = Except.error (404, "Task not found")) ∧
    (∀ t, dictGet s.tasks id = some t → t.status ≠ "completed" →
      get_tts_result s id =
        Except.error (400, "Task is not completed. Current status: " ++ t.status) ∧
      ∃ pre, "Task is not completed. Current status: " ++ t.status =
        pre ++ t.status) := by
  constructor
  · intro h
    simp [get_tts_result, h]
  · intro t ht hne
    have hb : (t.status != "completed") = true := bne_iff_ne.mpr hne
    constructor
    · simp [get_tts_result, ht, hb]
    · exact ⟨"Task is not completed. Current status: ", rfl⟩

/-- A concrete store with one record still in progress, for the C8 witness. -/
def sProgress : Sys := ⟨[("a", { status := "processing", created_at := 0 })], []⟩

/-- Witness for C8: at sProgress, an unknown id gets 404 and the processing
record gets the 400 error carrying its status. -/
theorem C8_fetch_errors_witness :
    get_tts_result sProgress "b" = Except.error (404, "Task not found") ∧
    get_tts_result sProgress "a" =
      Except.error (400, "Task is not completed. Current status: processing") :=
  ⟨(C8_fetch_errors sProgress "b").1 (by decide),
   ((C8_fetch_errors sProgress "a").2 { status := "processing", created_at := 0 }
     (by decide) (by decide)).1⟩

/-- The record of a completed task whose artifact was then removed externally:
its output_file still holds the path. For claim C7. -/
def tGone : TaskRec :=
  { status := "completed", created_at := 0, completed_at := some 5,
    output_file := some "temp_tts_g1/rvc_output.wav", error := none }

/-- A store holding only that completed task. -/
def sGone : Sys := ⟨[("g1", tGone)], []⟩

/-- C7 counterexample: in the state sGone the file at the stored output path
cannot be opened (the filesystem holds no files at all), yet get_tts_result
returns the FileResponse on that path instead of the 404 MissingArtifact error:
lines 199-202 test only whether the output_file field is falsy, never the
filesystem. -/
theorem C7_counterexample :
    canOpen [] "temp_tts_g1/rvc_output.wav" = false ∧
    get_tts_result sGone "g1" = Except.ok "temp_tts_g1/rvc_output.wav" ∧
    get_tts_result sGone "g1" ≠ Except.error (404, "Output file not found") := by
  refine ⟨rfl, rfl, ?_⟩
  intro h
  exact Except.noConfusion h

/-- C7 amended: for a record with status "completed", get_tts_result returns
the 404 MissingArtifact error exactly when the stored output_file field is
absent or empty; it performs no filesystem check, so when the field holds a
path whose file was externally removed it still returns the file response for
that path. -/
theorem C7_amended {s : Sys} {id : String} {t : TaskRec}
    (hget : dictGet s.tasks id = some t) (hc : t.status = "completed") :
    (get_tts_result s id = Except.error (404, "Output file not found") ↔
      (t.output_file = none ∨ t.output_file = some "")) ∧
    (∀ f, t.output_file = some f → f ≠ "" →
      get_tts_result s id = Except.ok f) := by
  have hb : (t.status != "completed") = false := by simp [hc]
  constructor
  · cases hof : t.output_file with
    | none => simp [get_tts_result, hget, hb, hof]
    | some f =>
      by_cases hf : f = ""
      · subst hf
        simp [get_tts_result, hget, hb, hof]
      · simp [get_tts_result, hget, hb, hof, hf]
  · intro f hf hfne
    simp [get_tts_result, hget, hb, hf, hfne]

/-- Witness for C7 amended, at the concrete state sGone. -/
theorem C7_amended_witness :
    get_tts_result sGone "g1" = Except.ok "temp_tts_g1/rvc_output.wav" :=
  (@C7_amended sGone "g1" tGone (by decide) (by decide)).2
    "temp_tts_g1/rvc_output.wav" rfl (by decide)

/-- A store with one record mid-execution and its working directory on disk,
for claim C3. -/
def sProc : Sys :=
  ⟨[("p1", { status := "processing", created_at := 0 })], ["temp_tts_p1"]⟩

/-- C3 counterexample: when the engine fails with "boom" at sProc, the worker
does record the failure, but the second component of process_finish — the
exception escaping the background execution function, from the raise at line
136 — is some "boom", refuting that no exception propagates out. -/
theorem C3_counterexample :
    (process_finish sProc "p1" (EngineResult.err "boom") 9).2 = some "boom" ∧
    (process_finish sProc "p1" (EngineResult.err "boom") 9).2 ≠ none := by
  refine ⟨rfl, ?_⟩
  intro h
  exact Option.noConfusion h

/-- C3 amended: on an engine failure the worker records status "failed" with
the error message and completed_at into the record and removes the working
directory, but it then re-raises the exception (line 136), which escapes the
background execution function instead of being absorbed. -/
theorem C3_amended {s : Sys} {id : String} {t : TaskRec} (msg : String) (now : Nat)
    (hget : dictGet s.tasks id = some t) :
    dictGet (process_finish s id (EngineResult.err msg) now).1.tasks id =
      some { t with status := "failed", completed_at := some now,
                    error := some msg } ∧
    tempDir id ∉ (process_finish s id (EngineResult.err msg) now).1.dirs ∧
    (process_finish s id (EngineResult.err msg) now).2 = some msg := by
  have hps : process_finish s id (EngineResult.err msg) now =
      (⟨dictSet s.tasks id (fun t2 =>
          { t2 with status := "failed", completed_at := some now,
                    error := some msg }),
        rmtreeIfExists s.dirs (tempDir id)⟩, some msg) := by
    simp [process_finish, hget]
  rw [hps]
  refine ⟨?_, ?_, rfl⟩
  · show dictGet (dictSet s.tasks id (fun t2 =>
        { t2 with status := "failed", completed_at := some now,
                  error := some msg })) id = _
    rw [dictGet_dictSet, if_pos rfl, hget]
    rfl
  · intro hmem
    have hmem2 : tempDir id ∈ rmtreeIfExists s.dirs (tempDir id) := hmem
    rw [rmtreeIfExists_eq_filter] at hmem2
    have hb := (List.mem_filter.mp hmem2).2
    simp at hb

/-- Witness for C3 amended, at the concrete state sProc. -/
theorem C3_amended_witness :
    dictGet (process_finish sProc "p1" (EngineResult.err "boom") 9).1.tasks "p1" =
      some { status := "failed", created_at := 0, completed_at := some 9,
             output_file := none, error := some "boom" } ∧
    tempDir "p1" ∉ (process_finish sProc "p1" (EngineResult.err "boom") 9).1.dirs ∧
    (process_finish sProc "p1" (EngineResult.err "boom") 9).2 = some "boom" :=
  @C3_amended sProc "p1" { status := "processing", created_at := 0 } "boom" 9 (by decide)

/-- The state reached by submitting task "d1" into the empty store and deleting
it before its worker coroutine ever runs. For claim C4. -/
def sDeleted : Sys := (delete_tts_task (text_to_speech ⟨[], []⟩ "d1" 0).1 "d1").1

/-- C4 counterexample: after submit-then-delete, letting the worker start still
leaves get on "d1" with 404 NotFound, but the worker recreates temp_tts_d1 at
line 78 before KeyError escapes at lines 84/126, skipping every cleanup — the
working directory remains on disk after the execution's would-be end, refuting
that no artifact persists. -/
theorem C4_counterexample :
    get_tts_status (process_start sDeleted "d1").1 "d1" =
      Except.error (404, "Task not found") ∧
    "temp_tts_d1" ∈ (process_start sDeleted "d1").1.dirs ∧
    (process_start sDeleted "d1").2 = some "KeyError" := by
  refine ⟨rfl, by decide, rfl⟩

/-- C4 amended: after deleteTask removes the record, the record is never
recreated and every later get returns 404 NotFound; but the artifact part holds
only for deletions that happen after the worker's first segment: a worker that
starts after the deletion recreates the working directory, its KeyError escape
skips all cleanup, and temp_tts_id remains on disk, while a worker already past
its first segment changes nothing when it finishes. -/
theorem C4_amended {s : Sys} {id : String} (hdead : dictGet s.tasks id = none) :
    (get_tts_status (process_start s id).1 id =
        Except.error (404, "Task not found") ∧
     tempDir id ∈ (process_start s id).1.dirs ∧
     (process_start s id).2 = some "KeyError") ∧
    (∀ r now, (process_finish s id r now).1 = s ∧
      (process_finish s id r now).2 = some "KeyError") := by
  have hps : process_start s id =
      (⟨s.tasks, makedirs s.dirs (tempDir id)⟩, some "KeyError") := by
    simp [process_start, hdead]
  constructor
  · rw [hps]
    refine ⟨?_, ?_, rfl⟩
    · simp [get_tts_status, hdead]
    · show tempDir id ∈ makedirs s.dirs (tempDir id)
      rw [makedirs]
      by_cases h : tempDir id ∈ s.dirs
      · rw [if_pos h]
        exact h
      · rw [if_neg h]
        exact List.mem_cons_self _ _
  · intro r now
    cases r with
    | ok o =>
      constructor <;> simp [process_finish, hdead]
    | err m =>
      constructor <;> simp [process_finish, hdead]

/-- Witness for C4 amended, at the concrete post-deletion state sDeleted. -/
theorem C4_amended_witness :
    get_tts_status (process_start sDeleted "d1").1 "d1" =
      Except.error (404, "Task not found") ∧
    (process_finish sDeleted "d1" (EngineResult.ok "x") 3).1 = sDeleted :=
  ⟨(@C4_amended sDeleted "d1" (by decide)).1.1,
   ((@C4_amended sDeleted "d1" (by decide)).2 (EngineResult.ok "x") 3).1⟩

/-- A record created exactly 24 hours before the sweep runs. For claim C5. -/
def tBoundary : TaskRec :=
  { status := "completed", created_at := 0, completed_at := some 10,
    output_file := some "x.wav", error := none }

/-- A store holding only the boundary record and its working directory. -/
def sBoundary : Sys := ⟨[("b1", tBoundary)], ["temp_tts_b1"]⟩

/-- C5 counterexample: a record whose age is exactly 24 hours does not EXCEED
the 24-hour retention window, yet the sweep tick at that instant deletes it,
record and directory — line 235 tests (now - createdAt).days >= 1, that is
age of at least 24 hours, not strictly more. -/
theorem C5_counterexample :
    ¬ (86400 - tBoundary.created_at > 24 * 3600) ∧
    (cleanup_tick 86400 sBoundary).tasks = [] ∧
    (cleanup_tick 86400 sBoundary).dirs = [] := by
  refine ⟨by decide, by decide, by decide⟩

/-- C5 amended: one sweep tick deletes exactly the records whose age is at
least 24 hours — line 235 deletes when (now - createdAt).days >= 1, so a record
exactly at the window boundary is deleted too — removing each such record
together with its working directory and leaving every younger record and its
directory in place; in particular, of three tasks aged 25, 23 and 1 hours, the
tick deletes the first and keeps the other two. -/
theorem C5_amended (now : Nat) (s : Sys) (hN : (s.tasks.map Prod.fst).Nodup) :
    (∀ p, p ∈ (cleanup_tick now s).tasks ↔
        p ∈ s.tasks ∧ (now - p.2.created_at) / 86400 < 1) ∧
    (∀ d, d ∈ (cleanup_tick now s).dirs ↔
        d ∈ s.dirs ∧ ∀ p ∈ s.tasks, 1 ≤ (now - p.2.created_at) / 86400 →
          d ≠ tempDir p.1) := by
  constructor
  · intro p
    rw [mem_cleanup_tasks]
    constructor
    · rintro ⟨hp, hnot⟩
      refine ⟨hp, ?_⟩
      by_contra hge
      rw [Nat.not_lt] at hge
      exact hnot (mem_sweepIds.mpr ⟨p.2, hp, by simpa [expired] using hge⟩)
    · rintro ⟨hp, hlt⟩
      refine ⟨hp, fun hmem => ?_⟩
      rcases mem_sweepIds.mp hmem with ⟨t, htm, hexp⟩
      have h1 := dictGet_some_of_mem hN htm
      have h2 := dictGet_some_of_mem hN hp
      rw [h2] at h1
      injection h1 with h3
      have h3b : p.2 = t := h3
      rw [h3b] at hlt
      simp only [expired, decide_eq_true_eq] at hexp
      exact absurd hexp (Nat.not_le.mpr hlt)
  · intro d
    rw [mem_cleanup_dirs]
    constructor
    · rintro ⟨hd, hall⟩
      refine ⟨hd, fun p hp hexp => ?_⟩
      exact hall p.1 (mem_sweepIds.mpr ⟨p.2, hp, by simpa [expired] using hexp⟩)
    · rintro ⟨hd, hall⟩
      refine ⟨hd, fun idx hmem => ?_⟩
      rcases mem_sweepIds.mp hmem with ⟨t, htm, hexp⟩
      exact hall (idx, t) htm (by simpa [expired] using hexp)

/-- Scenario records for the C5 witness: tasks created 25, 23 and 1 hours
before the sweep at now = 100000 seconds. -/
def tS25 : TaskRec :=
  { status := "completed", created_at := 10000, completed_at := some 10800,
    output_file := some "a.wav", error := none }

/-- The 23-hour-old record of the C5 scenario. -/
def tS23 : TaskRec :=
  { status := "completed", created_at := 17200, completed_at := some 18000,
    output_file := some "b.wav", error := none }

/-- The 1-hour-old record of the C5 scenario. -/
def tS1h : TaskRec :=
  { status := "completed", created_at := 96400, completed_at := some 97000,
    output_file := some "c.wav", error := none }

/-- The store of the C5 scenario, all three working directories present. -/
def sScenario : Sys :=
  ⟨[("t25", tS25), ("t23", tS23), ("t1h", tS1h)],
   ["temp_tts_t25", "temp_tts_t23", "temp_tts_t1h"]⟩

/-- Witness for C5 amended: one tick at now = 100000 deletes the 25-hour-old
task and its directory and keeps the other two. -/
theorem C5_amended_witness :
    (("t25", tS25) ∉ (cleanup_tick 100000 sScenario).tasks) ∧
    (("t23", tS23) ∈ (cleanup_tick 100000 sScenario).tasks) ∧
    (("t1h", tS1h) ∈ (cleanup_tick 100000 sScenario).tasks) ∧
    "temp_tts_t25" ∉ (cleanup_tick 100000 sScenario).dirs ∧
    "temp_tts_t23" ∈ (cleanup_tick 100000 sScenario).dirs ∧
    "temp_tts_t1h" ∈ (cleanup_tick 100000 sScenario).dirs := by
  have h := C5_amended 100000 sScenario (by decide)
  refine ⟨?_, ?_, ?_, ?_, ?_, ?_⟩
  · intro hmem
    exact absurd ((h.1 _).mp hmem).2 (by decide)
  · exact (h.1 _).mpr ⟨by decide, by decide⟩
  · exact (h.1 _).mpr ⟨by decide, by decide⟩
  · intro hmem
    exact ((h.2 _).mp hmem).2 ("t25", tS25) (by decide) (by decide) rfl
  · exact (h.2 _).mpr ⟨by decide, by decide⟩
  · exact (h.2 _).mpr ⟨by decide, by decide⟩

theorem sweepGo_ok {failing : List String} : ∀ (ids : List String) (s : Sys),
    (∀ id ∈ ids, tempDir id ∉ failing) →
    sweepGo failing ids s = Except.ok (ids.foldl sweepStep s) := by
  intro ids
  induction ids with
  | nil =>
    intro s _
    rfl
  | cons id rest ih =>
    intro s h
    have hnf : tempDir id ∉ failing := h id (List.mem_cons_self _ _)
    have hrest : ∀ x ∈ rest, tempDir x ∉ failing :=
      fun x hx => h x (List.mem_cons_of_mem _ hx)
    by_cases hd : tempDir id ∈ s.dirs
    · rw [sweepGo, if_pos hd, if_neg hnf, ih _ hrest, List.foldl_cons]
      have hstep : sweepStep s id =
          ⟨dictDel s.tasks id, s.dirs.filter (fun x => x != tempDir id)⟩ := by
        simp [sweepStep, rmtreeIfExists_eq_filter]
      rw [hstep]
    · rw [sweepGo, if_neg hd, ih _ hrest, List.foldl_cons]
      have hstep : sweepStep s id = ⟨dictDel s.tasks id, s.dirs⟩ := by
        simp [sweepStep, rmtreeIfExists, hd]
      rw [hstep]

theorem sweepGo_error {failing : List String} {now : Nat} : ∀ (ids : List String) (s : Sys),
    ids.Nodup →
    (∀ id ∈ ids, ∃ t, (id, t) ∈ s.tasks ∧ expired now t = true) →
    ∀ m s2, sweepGo failing ids s = Except.error (m, s2) →
    ∃ p, p ∈ s2.tasks ∧ expired now p.2 = true := by
  intro ids
  induction ids with
  | nil =>
    intro s _ _ m s2 he
    exact absurd he (by simp [sweepGo])
  | cons id rest ih =>
    intro s hnd hall m s2 he
    obtain ⟨t, htm, hexp⟩ := hall id (List.mem_cons_self _ _)
    have hallrest : ∀ x ∈ rest, x ≠ id → ∃ t2, (x, t2) ∈ dictDel s.tasks id ∧
        expired now t2 = true := by
      intro x hx hxne
      obtain ⟨t2, htm2, hexp2⟩ := hall x (List.mem_cons_of_mem _ hx)
      exact ⟨t2, mem_dictDel.mpr ⟨htm2, hxne⟩, hexp2⟩
    have hxne : ∀ x ∈ rest, x ≠ id :=
      fun x hx hxe => (List.nodup_cons.mp hnd).1 (hxe ▸ hx)
    by_cases hd : tempDir id ∈ s.dirs
    · by_cases hf : tempDir id ∈ failing
      · rw [sweepGo, if_pos hd, if_pos hf] at he
        injection he with he2
        have hs2 : s = s2 := congrArg Prod.snd he2
        rw [← hs2]
        exact ⟨(id, t), htm, hexp⟩
      · rw [sweepGo, if_pos hd, if_neg hf] at he
        refine ih _ (List.nodup_cons.mp hnd).2 ?_ m s2 he
        intro x hx
        obtain ⟨t2, htm2, hexp2⟩ := hallrest x hx (hxne x hx)
        exact ⟨t2, htm2, hexp2⟩
    · rw [sweepGo, if_neg hd] at he
      refine ih _ (List.nodup_cons.mp hnd).2 ?_ m s2 he
      intro x hx
      obtain ⟨t2, htm2, hexp2⟩ := hallrest x hx (hxne x hx)
      exact ⟨t2, htm2, hexp2⟩

/-- Two expired records with both working directories on disk, for claim C6. -/
def tOld1 : TaskRec :=
  { status := "completed", created_at := 0, completed_at := some 5,
    output_file := some "a.wav", error := none }

/-- The second expired record of the C6 state. -/
def tOld2 : TaskRec :=
  { status := "completed", created_at := 100, completed_at := some 200,
    output_file := some "b.wav", error := none }

/-- The C6 state: two expired tasks, both directories present. -/
def sTwoOld : Sys := ⟨[("e1", tOld1), ("e2", tOld2)], ["temp_tts_e1", "temp_tts_e2"]⟩

/-- C6 counterexample: when removing the first expired record's working
directory fails, the sweep tick raises to its caller (the loop of lines 238-242
has no try/except) and the carried state still holds BOTH expired records —
the one failure stopped the deletion of the remaining eligible record. -/
theorem C6_counterexample :
    cleanup_tick_f ["temp_tts_e1"] 200000 sTwoOld =
      Except.error ("rmtree failed: temp_tts_e1", sTwoOld) ∧
    ("e2", tOld2) ∈ sTwoOld.tasks ∧ expired 200000 tOld2 = true := by
  refine ⟨rfl, by decide, by decide⟩

/-- C6 amended: a sweep tick in which no expired record's directory removal
fails never raises and performs the full sweep; but when a removal does fail,
the exception propagates out of the tick and aborts it, leaving at least one
expired record — the failing one and everything after it — undeleted, so one
task's artifact-removal problem does stop the sweep of the remaining records. -/
theorem C6_amended (failing : List String) (now : Nat) (s : Sys) :
    ((∀ id ∈ sweepIds now s, tempDir id ∉ failing) →
      cleanup_tick_f failing now s = Except.ok (cleanup_tick now s)) ∧
    ((s.tasks.map Prod.fst).Nodup →
      ∀ m s2, cleanup_tick_f failing now s = Except.error (m, s2) →
      ∃ p, p ∈ s2.tasks ∧ expired now p.2 = true) := by
  constructor
  · intro h
    exact sweepGo_ok _ _ h
  · intro hN m s2 he
    have hnd : (sweepIds now s).Nodup := by
      rw [sweepIds]
      exact hN.sublist ((List.filter_sublist _).map _)
    refine sweepGo_error _ _ hnd ?_ m s2 he
    intro x hx
    exact mem_sweepIds.mp hx

/-- Witness for C6 amended: at sTwoOld a tick with no failing directory equals
the plain sweep, and the tick failing on temp_tts_e1 leaves an expired record
behind. -/
theorem C6_amended_witness :
    cleanup_tick_f [] 200000 sTwoOld = Except.ok (cleanup_tick 200000 sTwoOld) ∧
    (∃ p, p ∈ sTwoOld.tasks ∧ expired 200000 p.2 = true) :=
  ⟨(C6_amended [] 200000 sTwoOld).1 (by decide),
   (C6_amended ["temp_tts_e1"] 200000 sTwoOld).2 (by decide)
     "rmtree failed: temp_tts_e1" sTwoOld rfl⟩

/-- C1: in every state reachable through any sequence of submit, execute (both
worker segments), status query, fetchResult, deleteTask and sweep operations,
every stored record has a nonempty output_file exactly when its status is
"completed", a nonempty error exactly when its status is "failed", and never
both fields present on the same record. -/
theorem C1_field_invariant {w : World} (hr : Reachable w) :
    ∀ p ∈ w.sys.tasks,
      ((∃ o, p.2.output_file = some o ∧ o ≠ "") ↔ p.2.status = "completed") ∧
      ((∃ m, p.2.error = some m ∧ m ≠ "") ↔ p.2.status = "failed") ∧
      ¬(p.2.output_file ≠ none ∧ p.2.error ≠ none) := by
  intro p hp
  have hi := reachable_inv hr
  by_cases hsch : p.1 ∈ w.scheduled
  · obtain ⟨hst, hout, herr0⟩ := hi.pendingInv p hp hsch
    refine ⟨iff_of_false ?_ ?_, iff_of_false ?_ ?_, ?_⟩
    · rintro ⟨o, ho, _⟩
      rw [hout] at ho
      exact Option.noConfusion ho
    · intro hc
      exact absurd (hst.symm.trans hc) (by decide)
    · rintro ⟨m, hm, _⟩
      rw [herr0] at hm
      exact Option.noConfusion hm
    · intro hf
      exact absurd (hst.symm.trans hf) (by decide)
    · rintro ⟨h1, _⟩
      exact h1 hout
  · by_cases hrun : p.1 ∈ w.running
    · obtain ⟨hst, hout, herr0⟩ := hi.processingInv p hp hrun
      refine ⟨iff_of_false ?_ ?_, iff_of_false ?_ ?_, ?_⟩
      · rintro ⟨o, ho, _⟩
        rw [hout] at ho
        exact Option.noConfusion ho
      · intro hc
        exact absurd (hst.symm.trans hc) (by decide)
      · rintro ⟨m, hm, _⟩
        rw [herr0] at hm
        exact Option.noConfusion hm
      · intro hf
        exact absurd (hst.symm.trans hf) (by decide)
      · rintro ⟨h1, _⟩
        exact h1 hout
    · rcases hi.terminalInv p hp hsch hrun with
        ⟨hst, ⟨o, ho, hone⟩, herr0⟩ | ⟨hst, ⟨m, hm, hmne⟩, hout0⟩
      · refine ⟨iff_of_true ⟨o, ho, hone⟩ hst, iff_of_false ?_ ?_, ?_⟩
        · rintro ⟨m, hm, _⟩
          rw [herr0] at hm
          exact Option.noConfusion hm
        · intro hf
          exact absurd (hst.symm.trans hf) (by decide)
        · rintro ⟨_, h2⟩
          exact h2 herr0
      · refine ⟨iff_of_false ?_ ?_, iff_of_true ⟨m, hm, hmne⟩ hst, ?_⟩
        · rintro ⟨o, ho, _⟩
          rw [hout0] at ho
          exact Option.noConfusion ho
        · intro hc
          exact absurd (hst.symm.trans hc) (by decide)
        · rintro ⟨h1, _⟩
          exact h1 hout0

/-- The world after submitting task "t1" at time 0 into the start state. -/
def wSubmit : World :=
  ⟨(text_to_speech World.start.sys "t1" 0).1, ["t1"], [], ["t1"]⟩

/-- The world after the worker's first segment for "t1" has run. -/
def wStarted : World :=
  ⟨(process_start wSubmit.sys "t1").1, [], ["t1"], ["t1"]⟩

/-- The world after the worker for "t1" finished successfully with output
temp_tts_t1/rvc_output.wav at time 7. -/
def wDone : World :=
  ⟨(process_finish wStarted.sys "t1"
      (EngineResult.ok "temp_tts_t1/rvc_output.wav") 7).1, [], [], ["t1"]⟩

theorem reachable_wStarted : Reachable wStarted :=
  Reachable.step
    (Reachable.step Reachable.start (Step.submit "t1" 0 (by decide)))
    (Step.execStart "t1" (by decide) (by decide))

theorem reachable_wDone : Reachable wDone :=
  Reachable.step reachable_wStarted
    (Step.execFinish "t1" (EngineResult.ok "temp_tts_t1/rvc_output.wav") 7
      (by decide) (fun o ho => by cases ho; decide) (fun m hm => nomatch hm))

/-- The record of "t1" midway through execution. -/
def tStarted : TaskRec := { status := "processing", created_at := 0 }

/-- The record of "t1" after successful completion at time 7. -/
def tDone : TaskRec :=
  { status := "completed", created_at := 0, completed_at := some 7,
    output_file := some "temp_tts_t1/rvc_output.wav", error := none }

/-- Witness for C1 at the record of "t1" in the concrete reachable world
wDone. -/
theorem C1_field_invariant_witness :
    ((∃ o, tDone.output_file = some o ∧ o ≠ "") ↔ tDone.status = "completed") ∧
    ((∃ m, tDone.error = some m ∧ m ≠ "") ↔ tDone.status = "failed") ∧
    ¬(tDone.output_file ≠ none ∧ tDone.error ≠ none) :=
  C1_field_invariant reachable_wDone ("t1", tDone) (by decide)

/-- C2: in every reachable state, every stored record's status is one of the
four states; a record created by submit starts at "pending"; and across any
single operation, a record's status either stays unchanged or makes one of the
allowed moves "pending" to "processing", "processing" to "completed",
"processing" to "failed" — never skipping or reversing; in particular no
operation ever changes a status that is already "completed" or "failed". -/
theorem C2_status_transitions {w : World} (hr : Reachable w) :
    (∀ p ∈ w.sys.tasks,
        p.2.status = "pending" ∨ p.2.status = "processing" ∨
        p.2.status = "completed" ∨ p.2.status = "failed") ∧
    (∀ id now, dictGet ((text_to_speech w.sys id now).1).tasks id =
        some { status := "pending", created_at := now }) ∧
    (∀ w', Step w w' → ∀ id t t', dictGet w.sys.tasks id = some t →
        dictGet w'.sys.tasks id = some t' →
        t'.status = t.status ∨
        (t.status = "pending" ∧ t'.status = "processing") ∨
        (t.status = "processing" ∧
          (t'.status = "completed" ∨ t'.status = "failed"))) ∧
    (∀ w', Step w w' → ∀ id t t', dictGet w.sys.tasks id = some t →
        dictGet w'.sys.tasks id = some t' →
        t.status = "completed" ∨ t.status = "failed" → t'.status = t.status) := by
  have hi := reachable_inv hr
  have hC : ∀ w', Step w w' → ∀ id t t', dictGet w.sys.tasks id = some t →
      dictGet w'.sys.tasks id = some t' →
      t'.status = t.status ∨
      (t.status = "pending" ∧ t'.status = "processing") ∨
      (t.status = "processing" ∧
        (t'.status = "completed" ∨ t'.status = "failed")) := by
    intro w' hstep id t t' hget hget'
    cases hstep with
    | submit id0 now0 hfresh =>
      have hg2 : dictGet ((id0, ({ status := "pending", created_at := now0 } :
          TaskRec)) :: w.sys.tasks) id = some t' := hget'
      by_cases he : id0 = id
      · exfalso
        apply hfresh
        rw [he]
        exact hi.keysUsed (id, t) (mem_of_dictGet_some hget)
      · rw [dictGet, if_neg he, hget] at hg2
        injection hg2 with h2
        exact Or.inl (by rw [← h2])
    | execStart id0 hs hlive =>
      rcases Option.isSome_iff_exists.mp hlive with ⟨t0, ht0⟩
      have hg2 : dictGet (dictSet w.sys.tasks id0
          (fun t2 => { t2 with status := "processing" })) id = some t' := by
        have hps : (process_start w.sys id0).1 =
            ⟨dictSet w.sys.tasks id0 (fun t2 => { t2 with status := "processing" }),
             makedirs w.sys.dirs (tempDir id0)⟩ := by
          simp [process_start, ht0]
        rw [hps] at hget'
        exact hget'
      rw [dictGet_dictSet] at hg2
      by_cases he : id = id0
      · rw [if_pos he, ht0] at hg2
        have hg3 : some ((fun t2 => { t2 with status := "processing" }) t0) =
            some t' := hg2
        injection hg3 with h2
        have hteq : t = t0 := by
          rw [he] at hget
          rw [hget] at ht0
          injection ht0 with h3
        have hpend := hi.pendingInv (id0, t0) (mem_of_dictGet_some ht0) hs
        refine Or.inr (Or.inl ⟨?_, ?_⟩)
        · rw [hteq]
          exact hpend.1
        · rw [← h2]
      · rw [if_neg he, hget] at hg2
        injection hg2 with h2
        exact Or.inl (by rw [← h2])
    | execStartGone id0 hs hdead =>
      have hg2 : dictGet w.sys.tasks id = some t' := by
        have hps : (process_start w.sys id0).1 =
            ⟨w.sys.tasks, makedirs w.sys.dirs (tempDir id0)⟩ := by
          simp [process_start, hdead]
        rw [hps] at hget'
        exact hget'
      rw [hget] at hg2
      injection hg2 with h2
      exact Or.inl (by rw [← h2])
    | execFinish id0 r now0 hr0 hok herr =>
      cases r with
      | ok out =>
        cases hg0 : dictGet w.sys.tasks id0 with
        | none =>
          have hg2 : dictGet w.sys.tasks id = some t' := by
            have hps : (process_finish w.sys id0 (EngineResult.ok out) now0).1 =
                w.sys := by
              simp [process_finish, hg0]
            rw [hps] at hget'
            exact hget'
          rw [hget] at hg2
          injection hg2 with h2
          exact Or.inl (by rw [← h2])
        | some t0 =>
          have hg2 : dictGet (dictSet w.sys.tasks id0 (fun t2 =>
              { t2 with status := "completed", completed_at := some now0,
                        output_file := some out })) id = some t' := by
            have hps : (process_finish w.sys id0 (EngineResult.ok out) now0).1 =
                ⟨dictSet w.sys.tasks id0 (fun t2 =>
                  { t2 with status := "completed", completed_at := some now0,
                            output_file := some out }), w.sys.dirs⟩ := by
              simp [process_finish, hg0]
            rw [hps] at hget'
            exact hget'
          rw [dictGet_dictSet] at hg2
          by_cases he : id = id0
          · rw [if_pos he, hg0] at hg2
            have hg3 : some ((fun t2 =>
                { t2 with status := "completed", completed_at := some now0,
                          output_file := some out }) t0) = some t' := hg2
            injection hg3 with h2
            have hteq : t = t0 := by
              rw [he] at hget
              rw [hget] at hg0
              injection hg0 with h3
            have hproc := hi.processingInv (id0, t0) (mem_of_dictGet_some hg0) hr0
            refine Or.inr (Or.inr ⟨?_, Or.inl ?_⟩)
            · rw [hteq]
              exact hproc.1
            · rw [← h2]
          · rw [if_neg he, hget] at hg2
            injection hg2 with h2
            exact Or.inl (by rw [← h2])
      | err msg =>
        cases hg0 : dictGet w.sys.tasks id0 with
        | none =>
          have hg2 : dictGet w.sys.tasks id = some t' := by
            have hps : (process_finish w.sys id0 (EngineResult.err msg) now0).1 =
                w.sys := by
              simp [process_finish, hg0]
            rw [hps] at hget'
            exact hget'
          rw [hget] at hg2
          injection hg2 with h2
          exact Or.inl (by rw [← h2])
        | some t0 =>
          have hg2 : dictGet (dictSet w.sys.tasks id0 (fun t2 =>
              { t2 with status := "failed", completed_at := some now0,
                        error := some msg })) id = some t' := by
            have hps : (process_finish w.sys id0 (EngineResult.err msg) now0).1 =
                ⟨dictSet w.sys.tasks id0 (fun t2 =>
                  { t2 with status := "failed", completed_at := some now0,
                            error := some msg }),
                 rmtreeIfExists w.sys.dirs (tempDir id0)⟩ := by
              simp [process_finish, hg0]
            rw [hps] at hget'
            exact hget'
          rw [dictGet_dictSet] at hg2
          by_cases he : id = id0
          · rw [if_pos he, hg0] at hg2
            have hg3 : some ((fun t2 =>
                { t2 with status := "failed", completed_at := some now0,
                          error := some msg }) t0) = some t' := hg2
            injection hg3 with h2
            have hteq : t = t0 := by
              rw [he] at hget
              rw [hget] at hg0
              injection hg0 with h3
            have hproc := hi.processingInv (id0, t0) (mem_of_dictGet_some hg0) hr0
            refine Or.inr (Or.inr ⟨?_, Or.inr ?_⟩)
            · rw [hteq]
              exact hproc.1
            · rw [← h2]
          · rw [if_neg he, hget] at hg2
            injection hg2 with h2
            exact Or.inl (by rw [← h2])
    | queryStatus id0 =>
      rw [hget] at hget'
      injection hget' with h2
      exact Or.inl (by rw [← h2])
    | queryResult id0 =>
      rw [hget] at hget'
      injection hget' with h2
      exact Or.inl (by rw [← h2])
    | deleteTask id0 =>
      cases hg0 : dictGet w.sys.tasks id0 with
      | none =>
        have hg2 : dictGet w.sys.tasks id = some t' := by
          have hps : (delete_tts_task w.sys id0).1 = w.sys := by
            simp [delete_tts_task, hg0]
          rw [hps] at hget'
          exact hget'
        rw [hget] at hg2
        injection hg2 with h2
        exact Or.inl (by rw [← h2])
      | some t0 =>
        have hg2 : dictGet (dictDel w.sys.tasks id0) id = some t' := by
          have hps : (delete_tts_task w.sys id0).1 =
              ⟨dictDel w.sys.tasks id0, rmtreeIfExists w.sys.dirs (tempDir id0)⟩ := by
            simp [delete_tts_task, hg0]
          rw [hps] at hget'
          exact hget'
        rw [dictGet_dictDel] at hg2
        by_cases he : id = id0
        · rw [if_pos he] at hg2
          exact absurd hg2 (by simp)
        · rw [if_neg he, hget] at hg2
          injection hg2 with h2
          exact Or.inl (by rw [← h2])
    | sweep now0 =>
      have hget2 : dictGet (cleanup_tick now0 w.sys).tasks id = some t' := hget'
      have hmem2 : (id, t') ∈ (cleanup_tick now0 w.sys).tasks :=
        mem_of_dictGet_some hget2
      have hmem3 := (mem_cleanup_tasks.mp hmem2).1
      have hg2 : dictGet w.sys.tasks id = some t' :=
        dictGet_some_of_mem hi.keysNodup hmem3
      rw [hget] at hg2
      injection hg2 with h2
      exact Or.inl (by rw [← h2])
  refine ⟨?_, ?_, hC, ?_⟩
  · intro p hp
    by_cases h1 : p.1 ∈ w.scheduled
    · exact Or.inl (hi.pendingInv p hp h1).1
    · by_cases h2 : p.1 ∈ w.running
      · exact Or.inr (Or.inl (hi.processingInv p hp h2).1)
      · rcases hi.terminalInv p hp h1 h2 with ⟨hst, _⟩ | ⟨hst, _⟩
        · exact Or.inr (Or.inr (Or.inl hst))
        · exact Or.inr (Or.inr (Or.inr hst))
  · intro id now0
    simp [text_to_speech, dictGet]
  · intro w' hstep id t t' hget hget' hterm
    rcases hC w' hstep id t t' hget hget' with h | ⟨hp2, _⟩ | ⟨hp2, _⟩
    · exact h
    · rcases hterm with hc | hf
      · exact absurd (hp2.symm.trans hc) (by decide)
      · exact absurd (hp2.symm.trans hf) (by decide)
    · rcases hterm with hc | hf
      · exact absurd (hp2.symm.trans hc) (by decide)
      · exact absurd (hp2.symm.trans hf) (by decide)

/-- Witness for C2: the concrete step from wStarted to wDone takes the record
of "t1" from "processing" to "completed", one of the allowed transitions. -/
theorem C2_status_transitions_witness :
    tDone.status = tStarted.status ∨
    (tStarted.status = "pending" ∧ tDone.status = "processing") ∨
    (tStarted.status = "processing" ∧
      (tDone.status = "completed" ∨ tDone.status = "failed")) :=
  (C2_status_transitions reachable_wStarted).2.2.1 wDone
    (Step.execFinish "t1" (EngineResult.ok "temp_tts_t1/rvc_output.wav") 7
      (by decide) (fun o ho => by cases ho; decide) (fun m hm => nomatch hm))
    "t1" tStarted tDone (by decide) (by decide)

/-- The statements of the try block of process_tts_task (lines 76-122), in
source order, at the granularity relevant to the failure handler. -/
inductive PStmt where
  | assignTempDir
  | makedirsCall
  | assignPaths
  | setProcessing
  | engineCall
  | finalUpdate
deriving DecidableEq

/-- The try-block body: line 77 (the temp_dir assignment), line 78 (makedirs),
lines 80-81 (the two output-path assignments), line 84 (the status update),
lines 87-115 (the engine call), lines 118-122 (the final update), in order. -/
def tryBody : List PStmt :=
  [PStmt.assignTempDir, PStmt.makedirsCall, PStmt.assignPaths,
   PStmt.setProcessing, PStmt.engineCall, PStmt.finalUpdate]

/-- Which try-block statements can raise: the temp_dir assignment is an
f-string over a str, infallible, as are the two path assignments; makedirs can
raise OSError, the two dict accesses can raise KeyError, and the engine call
can raise anything. -/
def canRaise : PStmt → Bool
  | PStmt.assignTempDir => false
  | PStmt.makedirsCall => true
  | PStmt.assignPaths => false
  | PStmt.setProcessing => true
  | PStmt.engineCall => true
  | PStmt.finalUpdate => true

/-- Runs the try-block statements in order, tracking the binding of the local
variable temp_dir (none while unassigned); execution stops at failAt, the
statement that raises. The result is the binding the except handler of lines
124-134 observes when it starts. -/
def handlerEnv (id : String) :
    List PStmt → PStmt → Option String → Option String
  | [], _, env => env
  | st :: rest, failAt, env =>
      if st = failAt then env
      else handlerEnv id rest failAt
        (if st = PStmt.assignTempDir then some (tempDir id) else env)

/-- C10: whenever the failure handler of process_tts_task runs — that is, when
execution raised at any statement of the try block that can raise — the
temp_dir variable it references is already bound to temp_tts_id, because its
assignment is the first, infallible statement of the guarded block; the
cleanup-on-failure step can therefore never hit an unassigned variable. -/
theorem C10_tempdir_assigned (id : String) (failAt : PStmt)
    (h : canRaise failAt = true) :
    handlerEnv id tryBody failAt none = some (tempDir id) := by
  cases failAt with
  | assignTempDir => exact absurd h (by decide)
  | makedirsCall => rfl
  | assignPaths => exact absurd h (by decide)
  | setProcessing => rfl
  | engineCall => rfl
  | finalUpdate => rfl

/-- Witness for C10: execution failing at the engine call leaves the handler
with temp_dir bound to temp_tts_t1. -/
theorem C10_tempdir_assigned_witness :
    canRaise PStmt.engineCall = true ∧
    handlerEnv "t1" tryBody PStmt.engineCall none = some "temp_tts_t1" :=
  ⟨rfl, C10_tempdir_assigned "t1" PStmt.engineCall rfl⟩
